import Mathlib

/-!
Verification development for the ICT log reader (`src/logfile.rs`).

The repository contains two source files: `logfile.rs` (the log interpreter,
`LogFile::load_v2`) and `main.rs` (presentation, out of scope).  The
`keysight_log` module (line classifier and tree builder) is declared with
`mod keysight_log;` but its source is not part of the repository snapshot, so
the record data model below is reconstructed from the pattern matches in
`logfile.rs` and from the spec's record list; the interpreter itself is a
direct translation of `LogFile::load_v2`.

Numeric conventions: Rust `i32` status codes become `Int`, `u64` timestamps
become `Nat`, and `f32` measured values become `ℚ` (the interpreter only
copies measured values around, so exact rationals are a faithful stand-in for
the values the claims exercise).
-/

/-- Outcome tag, from `enum BResult` in `logfile.rs`. -/
inductive BResult where
  | Pass
  | Fail
  | Unknown
deriving DecidableEq

/-- Translation of `impl From<i32> for BResult`. -/
def BResult.fromInt (value : Int) : BResult :=
  if value = 0 then BResult.Pass else BResult.Fail

/-- Test type tag, from `enum TType` in `logfile.rs`. -/
inductive TType where
  | Pin
  | Shorts
  | Jumper
  | Fuse
  | Resistor
  | Capacitor
  | Inductor
  | Diode
  | Zener
  | NFet
  | PFet
  | Npn
  | Pnp
  | Pot
  | Switch
  | Testjet
  | Digital
  | Measurement
  | Current
  | BoundaryS
  | Unknown
deriving DecidableEq

/-- Analog test sub-kind of the missing `keysight_log` module; the variant
list is read off `impl From<keysight_log::AnalogTest> for TType`. -/
inductive AnalogTest where
  | Cap
  | Diode
  | Fuse
  | Inductor
  | Jumper
  | Measurement
  | NFet
  | PFet
  | Npn
  | Pnp
  | Pot
  | Res
  | Switch
  | Zener
  | Error
deriving DecidableEq

/-- Translation of `impl From<keysight_log::AnalogTest> for TType`. -/
def TType.fromAnalog (value : AnalogTest) : TType :=
  match value with
  | AnalogTest.Cap => TType.Capacitor
  | AnalogTest.Diode => TType.Diode
  | AnalogTest.Fuse => TType.Fuse
  | AnalogTest.Inductor => TType.Inductor
  | AnalogTest.Jumper => TType.Jumper
  | AnalogTest.Measurement => TType.Measurement
  | AnalogTest.NFet => TType.NFet
  | AnalogTest.PFet => TType.PFet
  | AnalogTest.Npn => TType.Npn
  | AnalogTest.Pnp => TType.Pnp
  | AnalogTest.Pot => TType.Pot
  | AnalogTest.Res => TType.Resistor
  | AnalogTest.Switch => TType.Switch
  | AnalogTest.Zener => TType.Zener
  | AnalogTest.Error => TType.Unknown

/-- Limit variants, from `enum TLimit` in `logfile.rs`. -/
inductive TLimit where
  | None
  | Lim2 (max min : ℚ)
  | Lim3 (nom max min : ℚ)
deriving DecidableEq

/-- Normalized test record, from `struct Test` in `logfile.rs`.
`result` is the pair `TResult = (BResult, f32)`. -/
structure Test where
  name : String
  ttype : TType
  result : BResult × ℚ
  limits : TLimit
deriving DecidableEq

/-- Modelled from the spec and the interpreter's pattern matches: the record
variants of the missing `keysight_log` module (`KeysightPrefix` in the
source; renamed here).  Each variant carries exactly the positional fields
the interpreter destructures; fields the interpreter ignores are kept as
placeholders (`String` for unknown textual fields, `Int` for unknown numeric
fields). -/
inductive KeysightRecord where
  | Batch (p_id f2 f3 f4 f5 f6 f7 f8 f9 f10 f11 f12 f13 f14 : String)
  | BTest (b_id : String) (b_status : Int) (t_start : Nat)
      (f4 f5 f6 f7 f8 f9 : String) (t_end : Nat) (f11 : String)
      (b_index : Nat) (mb_id : Option String)
  | Analog (analog : AnalogTest) (status : Int) (result : ℚ)
      (sub_name : Option String)
  | AlarmId (f1 f2 : Int)
  | Alarm (f1 f2 f3 f4 f5 f6 f7 f8 f9 : Int)
  | Array (f1 f2 f3 f4 : Int)
  | Block (b_name : String) (f2 : Int)
  | Boundary (sub_name : String) (status : Int) (f3 f4 : Int)
  | Digital (status : Int) (f2 f3 f4 : Int) (sub_name : String)
  | DPin (f1 : Int) (pins : List (String × Int))
  | Pin (pin : List String)
  | Pins (f1 : Int) (status : Int) (f3 : Int)
  | Report (rpt : String)
  | Shorts (status s1 s2 s3 : Int) (f5 : Int)
  | ShortsSrc (f1 f2 : Int) (node : String)
  | ShortsDest (dst : List (String × Int))
  | ShortsOpen (src dst : String) (f3 : Int)
  | TJet (status : Int) (f2 : Int) (sub_name : String)
  | UserDefined (s : List String)
  | Error (s : String)
  | Lim2 (max min : ℚ)
  | Lim3 (nom max min : ℚ)

/-- Modelled from the spec: a tree node of the missing `keysight_log`
module owns one record and an ordered list of child nodes. -/
inductive TreeNode where
  | mk (data : KeysightRecord) (branches : List TreeNode)

def TreeNode.data : TreeNode → KeysightRecord
  | TreeNode.mk d _ => d

def TreeNode.branches : TreeNode → List TreeNode
  | TreeNode.mk _ bs => bs

/-- Translation of `strip_index` (`logfile.rs` lines 14-26): advance a char
iterator until a `'%'` has been consumed (or the string is exhausted) and
return the remaining characters. -/
def stripIndexAux : List Char → List Char
  | [] => []
  | c :: rest => if c = '%' then rest else stripIndexAux rest

/-- The Rust `strip_index` entry point. -/
def strip_index (s : String) : String :=
  String.mk (stripIndexAux s.data)

/-- Two-digit zero padding, Rust format `{:02.0}` on an integer. -/
def pad2 (n : Nat) : String :=
  if n < 10 then "0" ++ toString n else toString n

/-- Translation of `u64_to_string` (`logfile.rs` lines 29-49):
`YYMMDDhhmmss` packed decimal to `"YY.MM.DD hh:mm:ss"`. -/
def u64_to_string (x : Nat) : String :=
  let YY := x / 10 ^ 10
  let x1 := x % 10 ^ 10
  let MM := x1 / 10 ^ 8
  let x2 := x1 % 10 ^ 8
  let DD := x2 / 10 ^ 6
  let x3 := x2 % 10 ^ 6
  let hh := x3 / 10 ^ 4
  let x4 := x3 % 10 ^ 4
  let mm := x4 / 10 ^ 2
  let x5 := x4 % 10 ^ 2
  pad2 YY ++ "." ++ pad2 MM ++ "." ++ pad2 DD ++ " " ++
    pad2 hh ++ ":" ++ pad2 mm ++ ":" ++ pad2 x5

/-- Calendar time, standing in for `chrono::DateTime<chrono::Local>`; only
the six fields read by `local_time_to_u64` are kept. -/
structure LocalTime where
  year : Nat
  month : Nat
  day : Nat
  hour : Nat
  minute : Nat
  second : Nat
deriving DecidableEq

/-- Translation of `local_time_to_u64` (`logfile.rs` lines 51-58).  The Rust
code computes `t.year() as u64 - 2000`; truncated `Nat` subtraction agrees
with it for all years from 2000 on. -/
def local_time_to_u64 (t : LocalTime) : Nat :=
  (t.year - 2000) * 10 ^ 10 + t.month * 10 ^ 8 + t.day * 10 ^ 6 +
    t.hour * 10 ^ 4 + t.minute * 10 ^ 2 + t.second

/-- Result model of `struct LogFile`.  The `source` path and the
`status_str` rendering (produced by `keysight_log::status_to_str`, whose
source is not in the snapshot) are omitted; no claim concerns them. -/
structure LogFile where
  DMC : String
  DMC_mb : String
  product_id : String
  index : Nat
  result : Bool
  status : Int
  time_start : Nat
  time_end : Nat
  tests : List Test
  report : String
deriving DecidableEq

/-- Mutable locals of `load_v2`'s test-entry loop, gathered in one state
record: the output test list, the report accumulator, the failed-node and
failed-pin lists, and the power-supply-info counter. -/
structure InterpState where
  tests : List Test
  report : List String
  failed_nodes : List String
  failed_pins : List String
  PS_counter : Nat
deriving DecidableEq

/-- The pre-seeded pin-group placeholder pushed before parsing
(`logfile.rs` lines 288-294). -/
def pinsSeed : Test :=
  { name := "pins", ttype := TType.Pin,
    result := (BResult.Unknown, 0), limits := TLimit.None }

/-- Initial interpreter state of `load_v2`. -/
def initState : InterpState :=
  { tests := [pinsSeed], report := [], failed_nodes := [],
    failed_pins := [], PS_counter := 0 }

/-- Shape shared by every `tests.push` whose value is the raw status code:
name, type, result `(BResult::from(status), status as f32)`, no limits. -/
def mkSimpleTest (name : String) (ttype : TType) (status : Int) : Test :=
  { name := name, ttype := ttype,
    result := (BResult.fromInt status, (status : ℚ)), limits := TLimit.None }

/-- Vec index assignment `tests[i].result = r` (out of bounds is unreachable
in the source; it is modelled as a no-op). -/
def setTestResult : List Test → Nat → (BResult × ℚ) → List Test
  | [], _, _ => []
  | t :: ts, 0, r => { t with result := r } :: ts
  | t :: ts, Nat.succ i, r => t :: setTestResult ts i r

/-- Limit extraction from a test entry's first branch (`logfile.rs`
lines 387-404): a `Lim2`/`Lim3` record yields the matching variant, any
other first branch is a parse error yielding `TLimit.None`. -/
def extractLimits (branches : List TreeNode) : TLimit :=
  match branches.head? with
  | some lim =>
      match lim.data with
      | KeysightRecord.Lim2 mx mn => TLimit.Lim2 mx mn
      | KeysightRecord.Lim3 nom mx mn => TLimit.Lim3 nom mx mn
      | _ => TLimit.None
  | none => TLimit.None

/-- Report lines among a list of sub-fields (the `Report(rpt)` arms of the
sub-field loops; every other record kind is a diagnostic only). -/
def directReports (bs : List TreeNode) : List String :=
  bs.filterMap fun sf =>
    match sf.data with
    | KeysightRecord.Report r => some r
    | _ => none

/-- Failed-node identifiers contributed by `DPin` sub-fields. -/
def dpinNodes (bs : List TreeNode) : List String :=
  (bs.filterMap fun sf =>
    match sf.data with
    | KeysightRecord.DPin _ pins => some (pins.map Prod.fst)
    | _ => none).flatten

/-- Failed-pin identifiers contributed by `Pin` sub-fields of a pin-group
record. -/
def pinPins (bs : List TreeNode) : List String :=
  (bs.filterMap fun sf =>
    match sf.data with
    | KeysightRecord.Pin pin => some pin
    | _ => none).flatten

/-- Report lines collected while walking one branch of a shorts record
(`logfile.rs` lines 698-740): direct report lines, plus report lines nested
under `ShortsSrc` and `ShortsOpen` sub-entries. -/
def shortsSubReports (sf : TreeNode) : List String :=
  match sf.data with
  | KeysightRecord.Report r => [r]
  | KeysightRecord.ShortsSrc _ _ _ =>
      sf.branches.filterMap fun s2 =>
        match s2.data with
        | KeysightRecord.Report r => some r
        | _ => none
  | KeysightRecord.ShortsOpen _ _ _ =>
      sf.branches.filterMap fun s2 =>
        match s2.data with
        | KeysightRecord.Report r => some r
        | _ => none
  | _ => []

def shortsReports (bs : List TreeNode) : List String :=
  (bs.map shortsSubReports).flatten

/-- Failed-node identifiers collected while walking one branch of a shorts
record: the source node and its destination list, or both ends of an open. -/
def shortsSubNodes (sf : TreeNode) : List String :=
  match sf.data with
  | KeysightRecord.ShortsSrc _ _ node =>
      node :: (sf.branches.filterMap fun s2 =>
        match s2.data with
        | KeysightRecord.ShortsDest dst => some (dst.map Prod.fst)
        | _ => none).flatten
  | KeysightRecord.ShortsOpen src dst _ => [src, dst]
  | _ => []

def shortsNodes (bs : List TreeNode) : List String :=
  (bs.map shortsSubNodes).flatten

/-- Report lines contributed by one member of a `Block` (`logfile.rs`
lines 438-597).  For an analog member the first branch is reserved for the
limit record and is skipped (`iter().skip(1)`); digital, test-jet and
boundary members contribute all their direct report lines. -/
def blockSubReports (sub : TreeNode) : List String :=
  match sub.data with
  | KeysightRecord.Analog _ _ _ _ => directReports (sub.branches.drop 1)
  | KeysightRecord.Digital _ _ _ _ _ => directReports sub.branches
  | KeysightRecord.TJet _ _ _ => directReports sub.branches
  | KeysightRecord.Boundary _ _ _ _ => directReports sub.branches
  | KeysightRecord.Report r => [r]
  | _ => []

def blockReports (bs : List TreeNode) : List String :=
  (bs.map blockSubReports).flatten

/-- Failed-node identifiers contributed by one member of a `Block`: only
test-jet members walk their `DPin` sub-fields. -/
def blockSubNodes (sub : TreeNode) : List String :=
  match sub.data with
  | KeysightRecord.TJet _ _ _ => dpinNodes sub.branches
  | _ => []

def blockNodes (bs : List TreeNode) : List String :=
  (bs.map blockSubNodes).flatten

/-- One step of the `Block` member loop acting on the test list and the two
slot trackers `digital_tp` / `boundary_tp` (`logfile.rs` lines 433-598).
The report and failed-node accumulations of the same loop touch disjoint
state and are modelled by `blockReports` / `blockNodes`. -/
def blockTestStep (block_name : String)
    (acc : List Test × Option Nat × Option Nat) (sub : TreeNode) :
    List Test × Option Nat × Option Nat :=
  match acc with
  | (ts, digital_tp, boundary_tp) =>
    match sub.data with
    | KeysightRecord.Analog analog status result sub_name =>
        let nm := match sub_name with
          | some sn => block_name ++ "%" ++ sn
          | none => block_name
        (ts ++ [{ name := nm, ttype := TType.fromAnalog analog,
                  result := (BResult.fromInt status, result),
                  limits := extractLimits sub.branches }],
         digital_tp, boundary_tp)
    | KeysightRecord.Digital status _ _ _ sub_name =>
        (match digital_tp with
         | some dt =>
             (if status ≠ 0 then
                setTestResult ts dt (BResult.fromInt status, (status : ℚ))
              else ts, digital_tp, boundary_tp)
         | none =>
             (ts ++ [mkSimpleTest (strip_index sub_name) TType.Digital status],
              some ts.length, boundary_tp))
    | KeysightRecord.TJet status _ sub_name =>
        (ts ++ [mkSimpleTest (block_name ++ "%" ++ strip_index sub_name)
                  TType.Testjet status],
         digital_tp, boundary_tp)
    | KeysightRecord.Boundary sub_name status _ _ =>
        (match boundary_tp with
         | some bt =>
             (if status ≠ 0 then
                setTestResult ts bt (BResult.fromInt status, (status : ℚ))
              else ts, digital_tp, boundary_tp)
         | none =>
             (ts ++ [mkSimpleTest (strip_index sub_name) TType.BoundaryS status],
              digital_tp, some ts.length))
    | _ => (ts, digital_tp, boundary_tp)

/-- Digit-string to number; `none` on empty input or any non-digit. -/
def digitsToNat (cs : List Char) : Option Nat :=
  if cs = [] then none
  else
    cs.foldl
      (fun acc c => acc.bind fun n =>
        if c.isDigit then some (n * 10 + (c.toNat - '0'.toNat)) else none)
      (some 0)

/-- Modelled from the spec: Rust `str::parse::<i32>` on the decimal
numerals these logs carry - optional sign, digits, 32-bit range check. -/
def parseI32 (s : String) : Option Int :=
  match s.data with
  | '-' :: cs =>
      (digitsToNat cs).bind fun n =>
        if n ≤ 2147483648 then some (-(n : Int)) else none
  | '+' :: cs =>
      (digitsToNat cs).bind fun n =>
        if n ≤ 2147483647 then some ((n : Int)) else none
  | cs =>
      (digitsToNat cs).bind fun n =>
        if n ≤ 2147483647 then some ((n : Int)) else none

/-- Decimal numeral (integer part, optional fraction) as an exact rational. -/
def parseDecimal (cs : List Char) : Option ℚ :=
  match cs.span (fun c => c != '.') with
  | (ip, []) => (digitsToNat ip).map fun n => (n : ℚ)
  | (ip, _ :: fp) =>
      (digitsToNat ip).bind fun i =>
        (digitsToNat fp).map fun f =>
          (i : ℚ) + (f : ℚ) / (10 : ℚ) ^ fp.length

/-- Modelled from the spec: Rust `str::parse::<f32>` on the decimal
numerals these logs carry, with exact rationals in place of `f32`
rounding (the values the claims exercise are exactly representable). -/
def parseF32 (s : String) : Option ℚ :=
  match s.data with
  | '-' :: cs => (parseDecimal cs).map fun q => -q
  | '+' :: cs => parseDecimal cs
  | cs => parseDecimal cs

/-- Rust `str::strip_suffix`: the prefix left after removing `suff`, when
`suff` is a suffix. -/
def strip_suffix (s suff : String) : Option String :=
  if suff.data.isSuffixOf s.data then
    some (String.mk (s.data.take (s.data.length - suff.data.length)))
  else none

/-- The `UserDefined` arm of the test-entry loop (`logfile.rs`
lines 749-822): `@Programming_time` and `@PS_info` directives produce
synthetic tests, anything else is a diagnostic.  Indexing `s[0]` on an
empty field vector aborts in Rust, modelled as `none`. -/
def processUserDefined (st : InterpState) (s : List String) :
    Option InterpState :=
  match s with
  | [] => none
  | tag :: rest =>
    if tag = "@Programming_time" then
      match rest.head? with
      | none => some st
      | some f1 =>
          match strip_suffix f1 "msec" with
          | some t =>
              match parseI32 t with
              | some ts =>
                  some { st with tests := st.tests ++
                    [{ name := "Programming_time", ttype := TType.Unknown,
                       result := (BResult.Pass, (ts : ℚ) / 1000),
                       limits := TLimit.None }] }
              | none => some st
          | none => some st
    else if tag = "@PS_info" then
      match rest with
      | f1 :: f2 :: _ =>
          match strip_suffix f1 "V" with
          | some tv =>
              match parseF32 tv with
              | some voltage =>
                  match strip_suffix f2 "A" with
                  | some ta =>
                      match parseF32 ta with
                      | some current =>
                          let n := st.PS_counter + 1
                          some { st with
                            PS_counter := n,
                            tests := st.tests ++
                              [{ name := "PS_Info_" ++ toString n ++ "%Voltage",
                                 ttype := TType.Measurement,
                                 result := (BResult.Pass, voltage),
                                 limits := TLimit.None },
                               { name := "PS_Info_" ++ toString n ++ "%Current",
                                 ttype := TType.Current,
                                 result := (BResult.Pass, current),
                                 limits := TLimit.None }] }
                      | none => some st
                  | none => some st
              | none => some st
          | none => some st
      | _ => some st
    else some st

/-- One iteration of the test-entry loop of `load_v2` (`logfile.rs`
lines 382-833).  `AlarmId`, `Alarm` and `Array` records hit `todo!()` in
the source (a panic), modelled as `none`.  The Rust loop updates `tests`,
`report`, `failed_nodes` and `failed_pins` in a single pass; the four
accumulators are independent, so each is modelled by its own traversal. -/
def processTestNode (st : InterpState) (node : TreeNode) :
    Option InterpState :=
  match node.data with
  | KeysightRecord.Analog analog status result sub_name =>
      match sub_name with
      | some nm =>
          some { st with
            report := st.report ++ directReports (node.branches.drop 1),
            tests := st.tests ++
              [{ name := strip_index nm, ttype := TType.fromAnalog analog,
                 result := (BResult.fromInt status, result),
                 limits := extractLimits node.branches }] }
      | none => some st
  | KeysightRecord.AlarmId _ _ => none
  | KeysightRecord.Alarm _ _ _ _ _ _ _ _ _ => none
  | KeysightRecord.Array _ _ _ _ => none
  | KeysightRecord.Block b_name _ =>
      some { st with
        report := st.report ++ blockReports node.branches,
        failed_nodes := st.failed_nodes ++ blockNodes node.branches,
        tests := (node.branches.foldl (blockTestStep (strip_index b_name))
          (st.tests, none, none)).1 }
  | KeysightRecord.Boundary test_name status _ _ =>
      some { st with
        report := st.report ++ directReports node.branches,
        tests := st.tests ++
          [mkSimpleTest (strip_index test_name) TType.BoundaryS status] }
  | KeysightRecord.Digital status _ _ _ test_name =>
      some { st with
        report := st.report ++ directReports node.branches,
        failed_nodes := st.failed_nodes ++ dpinNodes node.branches,
        tests := st.tests ++
          [mkSimpleTest (strip_index test_name) TType.Digital status] }
  | KeysightRecord.Pins _ status _ =>
      some { st with
        report := st.report ++ directReports node.branches,
        failed_pins := st.failed_pins ++ pinPins node.branches,
        tests := setTestResult st.tests 0
          (BResult.fromInt status, (status : ℚ)) }
  | KeysightRecord.Report rpt =>
      some { st with report := st.report ++ [rpt] }
  | KeysightRecord.TJet status _ test_name =>
      some { st with
        report := st.report ++ directReports node.branches,
        tests := st.tests ++
          [mkSimpleTest (strip_index test_name) TType.Testjet status] }
  | KeysightRecord.Shorts status s1 s2 s3 _ =>
      let status2 := if s1 > 0 ∨ s2 > 0 ∨ s3 > 0 then 1 else status
      some { st with
        report := st.report ++ shortsReports node.branches,
        failed_nodes := st.failed_nodes ++ shortsNodes node.branches,
        tests := st.tests ++ [mkSimpleTest "shorts" TType.Shorts status2] }
  | KeysightRecord.UserDefined s => processUserDefined st s
  | KeysightRecord.Error _ => some st
  | _ => some st

/-- The test-entry loop: left-to-right over the test nodes, aborting (like
the Rust panic) as soon as one node aborts. -/
def processTestNodes : InterpState → List TreeNode → Option InterpState
  | st, [] => some st
  | st, n :: ns =>
      match processTestNode st n with
      | some st1 => processTestNodes st1 ns
      | none => none

/-- Board metadata extracted from the last top-level node (batch header)
and its last branch (board-test header), `logfile.rs` lines 273-374. -/
structure BoardMeta where
  product_id : String
  DMC : String
  DMC_mb : String
  status : Int
  time_start : Nat
  time_end : Nat
  index : Nat
  btest_node : Option TreeNode

/-- Translation of the metadata-extraction prologue of `load_v2`: the last
top-level node is the batch header if it matches; the board-test header is
its last branch (or the last top-level node when no batch header matched);
defaults are applied when either is missing. -/
def extractMeta (tree : List TreeNode) : BoardMeta :=
  let pb : String × Option TreeNode :=
    match tree.getLast? with
    | some batch =>
        match batch.data with
        | KeysightRecord.Batch p_id _ _ _ _ _ _ _ _ _ _ _ _ _ =>
            (p_id, some batch)
        | _ => ("NoID", none)
    | none => ("NoID", none)
  let cand : Option TreeNode :=
    match pb.2 with
    | some x => x.branches.getLast?
    | none => tree.getLast?
  match cand with
  | some btest =>
      match btest.data with
      | KeysightRecord.BTest b_id b_status t_start _ _ _ _ _ _ t_end _
          b_index mb_id =>
          { product_id := pb.1, DMC := b_id, DMC_mb := mb_id.getD b_id,
            status := b_status, time_start := t_start, time_end := t_end,
            index := b_index, btest_node := some btest }
      | _ =>
          { product_id := pb.1, DMC := "NoDMC", DMC_mb := "NoMB",
            status := 0, time_start := 0, time_end := 0, index := 1,
            btest_node := none }
  | none =>
      { product_id := pb.1, DMC := "NoDMC", DMC_mb := "NoMB",
        status := 0, time_start := 0, time_end := 0, index := 1,
        btest_node := none }

/-- The nodes the test-entry loop iterates over: the board-test header's
branches, or the whole forest when no board-test header matched. -/
def testNodesOf (tree : List TreeNode) : List TreeNode :=
  match (extractMeta tree).btest_node with
  | some x => x.branches
  | none => tree

/-- Timestamp epilogue of `load_v2` (`logfile.rs` lines 836-844): a zero
start time is replaced by the file modification time (when readable), and a
zero end time by the (possibly substituted) start time. -/
def finalTimes (bm : BoardMeta) (mtime : Option LocalTime) : Nat × Nat :=
  let t_start := if bm.time_start = 0 then
      (match mtime with
       | some t => local_time_to_u64 t
       | none => bm.time_start)
    else bm.time_start
  let t_end := if bm.time_end = 0 then t_start else bm.time_end
  (t_start, t_end)

/-- Translation of `LogFile::load_v2` after file reading and tree building:
input is the parsed forest and the file's modification time (`none` when
`p.metadata()` fails).  File I/O failure, the only fatal case, is outside
this model. -/
def load_v2 (tree : List TreeNode) (mtime : Option LocalTime) :
    Option LogFile :=
  (processTestNodes initState (testNodesOf tree)).map fun st =>
    { DMC := (extractMeta tree).DMC, DMC_mb := (extractMeta tree).DMC_mb,
      product_id := (extractMeta tree).product_id,
      index := (extractMeta tree).index,
      result := (extractMeta tree).status == 0,
      status := (extractMeta tree).status,
      time_start := (finalTimes (extractMeta tree) mtime).1,
      time_end := (finalTimes (extractMeta tree) mtime).2,
      tests := st.tests,
      report := String.intercalate "\n" st.report }

/-- Signature of a test: its name and type.  The interpreter patches
results in place but never changes a stored name or type. -/
def sig (t : Test) : String × TType := (t.name, t.ttype)

/-- Whether a test-entry node is a shorts record. -/
def isShortsNode (n : TreeNode) : Bool :=
  match n.data with
  | KeysightRecord.Shorts _ _ _ _ _ => true
  | _ => false

/-- Report lines the interpreter collects from one test-entry node: the
positions walked by the corresponding arm of the test-entry loop. -/
def nodeReports (n : TreeNode) : List String :=
  match n.data with
  | KeysightRecord.Analog _ _ _ (some _) => directReports (n.branches.drop 1)
  | KeysightRecord.Analog _ _ _ none => []
  | KeysightRecord.Block _ _ => blockReports n.branches
  | KeysightRecord.Boundary _ _ _ _ => directReports n.branches
  | KeysightRecord.Digital _ _ _ _ _ => directReports n.branches
  | KeysightRecord.Pins _ _ _ => directReports n.branches
  | KeysightRecord.Report r => [r]
  | KeysightRecord.TJet _ _ _ => directReports n.branches
  | KeysightRecord.Shorts _ _ _ _ _ => shortsReports n.branches
  | _ => []

/-- Report lines collected over a whole test-node list, in file order. -/
def reportsOfNodes (ns : List TreeNode) : List String :=
  (ns.map nodeReports).flatten

/-- The status a node stores into the pre-seeded pin slot: the status of a
pin-group record, nothing for every other record kind. -/
def pinsStatusOf (n : TreeNode) : Option Int :=
  match n.data with
  | KeysightRecord.Pins _ s _ => some s
  | _ => none

/-- Status of the last pin-group record of a node list, if any. -/
def lastPinsStatus : List TreeNode → Option Int
  | [] => none
  | n :: ns =>
      match lastPinsStatus ns with
      | some s => some s
      | none => pinsStatusOf n

mutual
/-- Every free-text report line anywhere in a tree, at any nesting depth:
the board-wide collection the spec's report sentence describes. -/
def allReports : TreeNode → List String
  | TreeNode.mk d bs =>
      (match d with
       | KeysightRecord.Report r => [r]
       | _ => []) ++ allReportsList bs

/-- `allReports` over a forest, in file order. -/
def allReportsList : List TreeNode → List String
  | [] => []
  | t :: ts => allReports t ++ allReportsList ts
end

/-- A standalone digital record with the given status and name. -/
def digNode (s : Int) (nm : String) : TreeNode :=
  TreeNode.mk (KeysightRecord.Digital s 0 0 0 nm) []

/-- A standalone boundary-scan record with the given status and name. -/
def bdryNode (s : Int) (nm : String) : TreeNode :=
  TreeNode.mk (KeysightRecord.Boundary nm s 0 0) []

/-- A shorts record with the given primary and auxiliary status codes. -/
def shortsRecNode (st s1 s2 s3 : Int) : TreeNode :=
  TreeNode.mk (KeysightRecord.Shorts st s1 s2 s3 0) []

/-- A pin-group record with the given status. -/
def pinsRecNode (s : Int) : TreeNode :=
  TreeNode.mk (KeysightRecord.Pins 0 s 0) []

/-- A power-supply-info vendor directive with the given two fields. -/
def psInfoNode (vf cf : String) : TreeNode :=
  TreeNode.mk (KeysightRecord.UserDefined ["@PS_info", vf, cf]) []

/-- A digital block member from a (status, name) pair. -/
def mkDigSub (p : Int × String) : TreeNode := digNode p.1 p.2

/-- A boundary-scan block member from a (status, name) pair. -/
def mkBdrySub (p : Int × String) : TreeNode := bdryNode p.1 p.2

/-- A group (`BLOCK`) node whose members are digital records. -/
def mkDigBlock (bn : String) (subs : List (Int × String)) : TreeNode :=
  TreeNode.mk (KeysightRecord.Block bn 0) (subs.map mkDigSub)

/-- A group (`BLOCK`) node whose members are boundary-scan records. -/
def mkBdryBlock (bn : String) (subs : List (Int × String)) : TreeNode :=
  TreeNode.mk (KeysightRecord.Block bn 0) (subs.map mkBdrySub)

/-- The in-group merge of a status sequence: the first status creates the
slot, each later non-zero status overwrites it, later zeros are ignored. -/
def foldStatus (a : Int) (rest : List Int) : Int :=
  rest.foldl (fun acc s => if s ≠ 0 then s else acc) a

/-- Shorts record whose primary status is pass but whose first auxiliary
code is negative (hence non-zero). -/
def c2tree : List TreeNode := [shortsRecNode 0 (-1) 0 0]

/-- Two standalone digital records for the same logical check: statuses
0 then 3. -/
def c3tree : List TreeNode := [digNode 0 "1%d1", digNode 3 "2%d1"]

/-- An analog record whose first branch is a free-text report line (the
position reserved for the limit record). -/
def c5tree : List TreeNode :=
  [TreeNode.mk (KeysightRecord.Analog AnalogTest.Res 0 1 (some "1%r1"))
    [TreeNode.mk (KeysightRecord.Report "hello") []]]

/-- A single top-level free-text report line. -/
def c5wtree : List TreeNode := [TreeNode.mk (KeysightRecord.Report "hi") []]

/-- Two pin-group records: fail then pass. -/
def c9tree : List TreeNode := [pinsRecNode 1, pinsRecNode 0]

/-- Two shorts records: one failing, one passing. -/
def c10tree : List TreeNode := [shortsRecNode 1 0 0 0, shortsRecNode 0 0 0 0]

/-- Two well-formed power-supply-info directives. -/
def c8tree : List TreeNode := [psInfoNode "12.0V" "0.5A", psInfoNode "3.3V" "1.25A"]

/-- A concrete modification time: 2024-01-15 14:30:00. -/
def mt0 : LocalTime := ⟨2024, 1, 15, 14, 30, 0⟩

/-- The LogFile produced from an empty forest without a modification time. -/
def lfEmpty : LogFile :=
  { DMC := "NoDMC", DMC_mb := "NoMB", product_id := "NoID", index := 1,
    result := true, status := 0, time_start := 0, time_end := 0,
    tests := [pinsSeed], report := "" }

/-- The LogFile produced from an empty forest with modification time `mt0`. -/
def lfTime : LogFile :=
  { lfEmpty with time_start := 240115143000, time_end := 240115143000 }

/-- The LogFile produced from `c9tree`. -/
def lfPins : LogFile :=
  { lfEmpty with tests := [{ pinsSeed with result := (BResult.Pass, 0) }] }

/-- The LogFile produced from `c5wtree`. -/
def lfReportHi : LogFile := { lfEmpty with report := "hi" }

/-- The LogFile produced from `c10tree`. -/
def lfShorts2 : LogFile :=
  { lfEmpty with tests := [pinsSeed, mkSimpleTest "shorts" TType.Shorts 1,
      mkSimpleTest "shorts" TType.Shorts 0] }

theorem head?_append_of_ne_nil {α : Type} (l l2 : List α) (h : l ≠ []) :
    (l ++ l2).head? = l.head? := by
  cases l with
  | nil => exact absurd rfl h
  | cons t ts => rfl

theorem setTestResult_map_sig (ts : List Test) (i : Nat) (r : BResult × ℚ) :
    (setTestResult ts i r).map sig = ts.map sig := by
  induction ts generalizing i with
  | nil => rfl
  | cons t ts ih =>
      cases i with
      | zero => rfl
      | succ j => simp only [setTestResult, List.map_cons, ih]

theorem setTestResult_head_pos (ts : List Test) (i : Nat) (r : BResult × ℚ)
    (h : 1 ≤ i) : (setTestResult ts i r).head? = ts.head? := by
  cases ts with
  | nil => rfl
  | cons t ts =>
      cases i with
      | zero => omega
      | succ j => rfl

theorem setTestResult_ne_nil (ts : List Test) (i : Nat) (r : BResult × ℚ)
    (h : ts ≠ []) : setTestResult ts i r ≠ [] := by
  cases ts with
  | nil => exact absurd rfl h
  | cons t ts =>
      cases i with
      | zero => simp [setTestResult]
      | succ j => simp [setTestResult]

theorem setTestResult_append_singleton (xs : List Test) (t : Test)
    (r : BResult × ℚ) :
    setTestResult (xs ++ [t]) xs.length r = xs ++ [{ t with result := r }] := by
  induction xs with
  | nil => rfl
  | cons x xs ih => simp only [List.cons_append, List.length_cons,
      setTestResult, List.append_eq, ih]

theorem fromAnalog_ne (a : AnalogTest) :
    TType.fromAnalog a ≠ TType.Pin ∧ TType.fromAnalog a ≠ TType.Shorts := by
  cases a <;> exact ⟨by decide, by decide⟩

theorem processUserDefined_cases (st : InterpState) (s : List String)
    (st1 : InterpState) (h : processUserDefined st s = some st1) :
    st1 = st
    ∨ (∃ q : ℚ, st1 = { st with
          tests := st.tests ++
            [{ name := "Programming_time", ttype := TType.Unknown,
               result := (BResult.Pass, q), limits := TLimit.None }] })
    ∨ (∃ v c : ℚ, st1 = { st with
          PS_counter := st.PS_counter + 1,
          tests := st.tests ++
            [{ name := "PS_Info_" ++ toString (st.PS_counter + 1) ++ "%Voltage",
               ttype := TType.Measurement, result := (BResult.Pass, v),
               limits := TLimit.None },
             { name := "PS_Info_" ++ toString (st.PS_counter + 1) ++ "%Current",
               ttype := TType.Current, result := (BResult.Pass, c),
               limits := TLimit.None }] }) := by
  unfold processUserDefined at h
  repeat' split at h
  all_goals try exact Option.noConfusion h
  all_goals injection h with h
  all_goals subst h
  all_goals first
    | (left; rfl)
    | (right; left; exact ⟨_, rfl⟩)
    | (right; right; exact ⟨_, _, rfl⟩)

theorem blockTestStep_sig (bn : String) (ts : List Test) (dtp btp : Option Nat)
    (sub : TreeNode) :
    ∃ new, (blockTestStep bn (ts, dtp, btp) sub).1.map sig = ts.map sig ++ new
      ∧ ∀ p ∈ new, p.2 ≠ TType.Pin ∧ p.2 ≠ TType.Shorts := by
  obtain ⟨d, bs⟩ := sub
  cases d
  case Analog a status result sub_name =>
    cases sub_name with
    | some sn =>
        refine ⟨[(bn ++ "%" ++ sn, TType.fromAnalog a)], ?_, ?_⟩
        · simp [blockTestStep, TreeNode.data, sig]
        · intro p hp
          rw [List.mem_singleton] at hp
          subst hp
          exact fromAnalog_ne a
    | none =>
        refine ⟨[(bn, TType.fromAnalog a)], ?_, ?_⟩
        · simp [blockTestStep, TreeNode.data, sig]
        · intro p hp
          rw [List.mem_singleton] at hp
          subst hp
          exact fromAnalog_ne a
  case Digital status f2 f3 f4 sub_name =>
    cases dtp with
    | some dt =>
        refine ⟨[], ?_, by simp⟩
        simp only [blockTestStep, TreeNode.data, List.append_nil]
        split <;> simp [setTestResult_map_sig]
    | none =>
        refine ⟨[(strip_index sub_name, TType.Digital)], ?_, by simp⟩
        simp [blockTestStep, TreeNode.data, sig, mkSimpleTest]
  case TJet status f2 sub_name =>
    refine ⟨[(bn ++ "%" ++ strip_index sub_name, TType.Testjet)], ?_, by simp⟩
    simp [blockTestStep, TreeNode.data, sig, mkSimpleTest]
  case Boundary sub_name status f3 f4 =>
    cases btp with
    | some bt =>
        refine ⟨[], ?_, by simp⟩
        simp only [blockTestStep, TreeNode.data, List.append_nil]
        split <;> simp [setTestResult_map_sig]
    | none =>
        refine ⟨[(strip_index sub_name, TType.BoundaryS)], ?_, by simp⟩
        simp [blockTestStep, TreeNode.data, sig, mkSimpleTest]
  all_goals exact ⟨[], by simp [blockTestStep, TreeNode.data], by simp⟩

theorem blockTestStep_head (bn : String) (ts : List Test) (dtp btp : Option Nat)
    (sub : TreeNode) (hne : ts ≠ [])
    (hd : ∀ i, dtp = some i → 1 ≤ i) (hb : ∀ i, btp = some i → 1 ≤ i) :
    (blockTestStep bn (ts, dtp, btp) sub).1.head? = ts.head?
    ∧ (blockTestStep bn (ts, dtp, btp) sub).1 ≠ []
    ∧ (∀ i, (blockTestStep bn (ts, dtp, btp) sub).2.1 = some i → 1 ≤ i)
    ∧ (∀ i, (blockTestStep bn (ts, dtp, btp) sub).2.2 = some i → 1 ≤ i) := by
  obtain ⟨d, bs⟩ := sub
  cases d
  case Analog a status result sub_name =>
    simp only [blockTestStep, TreeNode.data]
    exact ⟨head?_append_of_ne_nil ts _ hne, by simp [hne], hd, hb⟩
  case Digital status f2 f3 f4 sub_name =>
    cases dtp with
    | some dt =>
        simp only [blockTestStep, TreeNode.data]
        refine ⟨?_, ?_, hd, hb⟩
        · split
          · exact setTestResult_head_pos ts dt _ (hd dt rfl)
          · rfl
        · split
          · exact setTestResult_ne_nil ts dt _ hne
          · exact hne
    | none =>
        simp only [blockTestStep, TreeNode.data]
        refine ⟨head?_append_of_ne_nil ts _ hne, by simp [hne], ?_, hb⟩
        intro i hi
        injection hi with hi
        subst hi
        exact List.length_pos.mpr hne
  case TJet status f2 sub_name =>
    simp only [blockTestStep, TreeNode.data]
    exact ⟨head?_append_of_ne_nil ts _ hne, by simp [hne], hd, hb⟩
  case Boundary sub_name status f3 f4 =>
    cases btp with
    | some bt =>
        simp only [blockTestStep, TreeNode.data]
        refine ⟨?_, ?_, hd, hb⟩
        · split
          · exact setTestResult_head_pos ts bt _ (hb bt rfl)
          · rfl
        · split
          · exact setTestResult_ne_nil ts bt _ hne
          · exact hne
    | none =>
        simp only [blockTestStep, TreeNode.data]
        refine ⟨head?_append_of_ne_nil ts _ hne, by simp [hne], hd, ?_⟩
        intro i hi
        injection hi with hi
        subst hi
        exact List.length_pos.mpr hne
  all_goals exact ⟨rfl, hne, hd, hb⟩

theorem blockTestFold_sig (bn : String) (subs : List TreeNode) :
    ∀ (ts : List Test) (dtp btp : Option Nat),
      ∃ new, ((subs.foldl (blockTestStep bn) (ts, dtp, btp)).1).map sig
          = ts.map sig ++ new
        ∧ ∀ p ∈ new, p.2 ≠ TType.Pin ∧ p.2 ≠ TType.Shorts := by
  induction subs with
  | nil => intro ts dtp btp; exact ⟨[], by simp, by simp⟩
  | cons sub subs ih =>
      intro ts dtp btp
      obtain ⟨new1, h1, h1m⟩ := blockTestStep_sig bn ts dtp btp sub
      obtain ⟨new2, h2, h2m⟩ := ih (blockTestStep bn (ts, dtp, btp) sub).1
        (blockTestStep bn (ts, dtp, btp) sub).2.1
        (blockTestStep bn (ts, dtp, btp) sub).2.2
      refine ⟨new1 ++ new2, ?_, ?_⟩
      · rw [List.foldl_cons]
        have he : ((blockTestStep bn (ts, dtp, btp) sub).1,
              (blockTestStep bn (ts, dtp, btp) sub).2.1,
              (blockTestStep bn (ts, dtp, btp) sub).2.2)
            = blockTestStep bn (ts, dtp, btp) sub := rfl
        rw [he] at h2
        rw [h2, h1, List.append_assoc]
      · intro p hp
        rcases List.mem_append.mp hp with hp1 | hp2
        · exact h1m p hp1
        · exact h2m p hp2

theorem blockTestFold_head (bn : String) (subs : List TreeNode) :
    ∀ (ts : List Test) (dtp btp : Option Nat), ts ≠ [] →
      (∀ i, dtp = some i → 1 ≤ i) → (∀ i, btp = some i → 1 ≤ i) →
      ((subs.foldl (blockTestStep bn) (ts, dtp, btp)).1.head? = ts.head?
       ∧ (subs.foldl (blockTestStep bn) (ts, dtp, btp)).1 ≠ []) := by
  induction subs with
  | nil => intro ts dtp btp hne _ _; exact ⟨rfl, hne⟩
  | cons sub subs ih =>
      intro ts dtp btp hne hd hb
      obtain ⟨hh, hn, hd2, hb2⟩ := blockTestStep_head bn ts dtp btp sub hne hd hb
      obtain ⟨ih1, ih2⟩ := ih (blockTestStep bn (ts, dtp, btp) sub).1
        (blockTestStep bn (ts, dtp, btp) sub).2.1
        (blockTestStep bn (ts, dtp, btp) sub).2.2 hn hd2 hb2
      have he : ((blockTestStep bn (ts, dtp, btp) sub).1,
            (blockTestStep bn (ts, dtp, btp) sub).2.1,
            (blockTestStep bn (ts, dtp, btp) sub).2.2)
          = blockTestStep bn (ts, dtp, btp) sub := rfl
      rw [he] at ih1 ih2
      rw [List.foldl_cons]
      exact ⟨ih1.trans hh, ih2⟩

theorem filter_shorts_single (nm : String) (τ : TType) (hτ : τ ≠ TType.Shorts) :
    ([(nm, τ)] : List (String × TType)).filter
      (fun p => p.2 == TType.Shorts) = [] := by
  simp [List.filter_cons, hτ]

theorem processTestNode_spec (st : InterpState) (n : TreeNode)
    (st1 : InterpState) (hne : st.tests ≠ [])
    (h : processTestNode st n = some st1) :
    (∃ new, st1.tests.map sig = st.tests.map sig ++ new
       ∧ (∀ p ∈ new, p.2 ≠ TType.Pin)
       ∧ new.filter (fun p => p.2 == TType.Shorts)
           = (if isShortsNode n then [("shorts", TType.Shorts)] else []))
    ∧ st1.report = st.report ++ nodeReports n
    ∧ st1.tests ≠ []
    ∧ st1.tests.head? = (match pinsStatusOf n with
        | some s =>
            st.tests.head?.map fun t =>
              { t with result := (BResult.fromInt s, (s : ℚ)) }
        | none => st.tests.head?) := by
  obtain ⟨d, bs⟩ := n
  cases d
  case Analog a status result sub_name =>
    cases sub_name with
    | some nm =>
        simp only [processTestNode, TreeNode.data, TreeNode.branches] at h
        injection h with h
        subst h
        refine ⟨⟨[(strip_index nm, TType.fromAnalog a)], ?_, ?_, ?_⟩, ?_, ?_, ?_⟩
        · simp [sig]
        · intro p hp
          rw [List.mem_singleton] at hp
          subst hp
          exact (fromAnalog_ne a).1
        · rw [filter_shorts_single _ _ (fromAnalog_ne a).2]
          simp [isShortsNode, TreeNode.data]
        · simp [nodeReports, TreeNode.data, TreeNode.branches]
        · simp [hne]
        · simp only [pinsStatusOf, TreeNode.data]
          exact head?_append_of_ne_nil st.tests _ hne
    | none =>
        simp only [processTestNode, TreeNode.data] at h
        injection h with h
        subst h
        exact ⟨⟨[], by simp, by simp, by simp [isShortsNode, TreeNode.data]⟩,
          by simp [nodeReports, TreeNode.data], hne, by simp [pinsStatusOf, TreeNode.data]⟩
  case AlarmId f1 f2 =>
    exact Option.noConfusion h
  case Alarm f1 f2 f3 f4 f5 f6 f7 f8 f9 =>
    exact Option.noConfusion h
  case Array f1 f2 f3 f4 =>
    exact Option.noConfusion h
  case Block b_name f2 =>
    simp only [processTestNode, TreeNode.data, TreeNode.branches] at h
    injection h with h
    subst h
    have hinv : ∀ i : Nat, (none : Option Nat) = some i → 1 ≤ i :=
      fun i hi => Option.noConfusion hi
    obtain ⟨new, hs, hm⟩ := blockTestFold_sig (strip_index b_name) bs st.tests
      none none
    obtain ⟨hh, hn⟩ := blockTestFold_head (strip_index b_name) bs st.tests
      none none hne hinv hinv
    refine ⟨⟨new, hs, fun p hp => (hm p hp).1, ?_⟩, ?_, hn, ?_⟩
    · rw [List.filter_eq_nil_iff.mpr fun p hp => by simp [(hm p hp).2]]
      simp [isShortsNode, TreeNode.data]
    · simp [nodeReports, TreeNode.data, TreeNode.branches]
    · simp only [pinsStatusOf, TreeNode.data]
      exact hh
  case Boundary test_name status f3 f4 =>
    simp only [processTestNode, TreeNode.data, TreeNode.branches] at h
    injection h with h
    subst h
    refine ⟨⟨[(strip_index test_name, TType.BoundaryS)], ?_, ?_, ?_⟩, ?_, ?_, ?_⟩
    · simp [sig, mkSimpleTest]
    · intro p hp
      rw [List.mem_singleton] at hp
      subst hp
      simp
    · rw [filter_shorts_single _ _ (by decide)]
      simp [isShortsNode, TreeNode.data]
    · simp [nodeReports, TreeNode.data, TreeNode.branches]
    · simp [hne]
    · simp only [pinsStatusOf, TreeNode.data]
      exact head?_append_of_ne_nil st.tests _ hne
  case Digital status f2 f3 f4 test_name =>
    simp only [processTestNode, TreeNode.data, TreeNode.branches] at h
    injection h with h
    subst h
    refine ⟨⟨[(strip_index test_name, TType.Digital)], ?_, ?_, ?_⟩, ?_, ?_, ?_⟩
    · simp [sig, mkSimpleTest]
    · intro p hp
      rw [List.mem_singleton] at hp
      subst hp
      simp
    · rw [filter_shorts_single _ _ (by decide)]
      simp [isShortsNode, TreeNode.data]
    · simp [nodeReports, TreeNode.data, TreeNode.branches]
    · simp [hne]
    · simp only [pinsStatusOf, TreeNode.data]
      exact head?_append_of_ne_nil st.tests _ hne
  case Pins f1 s f3 =>
    simp only [processTestNode, TreeNode.data, TreeNode.branches] at h
    injection h with h
    subst h
    refine ⟨⟨[], by simp [setTestResult_map_sig], by simp,
        by simp [isShortsNode, TreeNode.data]⟩,
      by simp [nodeReports, TreeNode.data, TreeNode.branches],
      setTestResult_ne_nil st.tests 0 _ hne, ?_⟩
    simp only [pinsStatusOf, TreeNode.data]
    cases hts : st.tests with
    | nil => exact absurd hts hne
    | cons t ts => rfl
  case Report rpt =>
    simp only [processTestNode, TreeNode.data] at h
    injection h with h
    subst h
    exact ⟨⟨[], by simp, by simp, by simp [isShortsNode, TreeNode.data]⟩,
      by simp [nodeReports, TreeNode.data], hne, by simp [pinsStatusOf, TreeNode.data]⟩
  case Shorts status s1 s2 s3 f5 =>
    simp only [processTestNode, TreeNode.data, TreeNode.branches] at h
    injection h with h
    subst h
    refine ⟨⟨[("shorts", TType.Shorts)], ?_, ?_, ?_⟩, ?_, ?_, ?_⟩
    · simp [sig, mkSimpleTest]
    · intro p hp
      rw [List.mem_singleton] at hp
      subst hp
      simp
    · simp [List.filter_cons, isShortsNode, TreeNode.data]
    · simp [nodeReports, TreeNode.data, TreeNode.branches]
    · simp [hne]
    · simp only [pinsStatusOf, TreeNode.data]
      exact head?_append_of_ne_nil st.tests _ hne
  case TJet status f2 test_name =>
    simp only [processTestNode, TreeNode.data, TreeNode.branches] at h
    injection h with h
    subst h
    refine ⟨⟨[(strip_index test_name, TType.Testjet)], ?_, ?_, ?_⟩, ?_, ?_, ?_⟩
    · simp [sig, mkSimpleTest]
    · intro p hp
      rw [List.mem_singleton] at hp
      subst hp
      simp
    · rw [filter_shorts_single _ _ (by decide)]
      simp [isShortsNode, TreeNode.data]
    · simp [nodeReports, TreeNode.data, TreeNode.branches]
    · simp [hne]
    · simp only [pinsStatusOf, TreeNode.data]
      exact head?_append_of_ne_nil st.tests _ hne
  case UserDefined s =>
    simp only [processTestNode, TreeNode.data] at h
    rcases processUserDefined_cases st s st1 h with hc | ⟨q, hc⟩ | ⟨v, c, hc⟩
    · subst hc
      exact ⟨⟨[], by simp, by simp, by simp [isShortsNode, TreeNode.data]⟩,
        by simp [nodeReports, TreeNode.data], hne, by simp [pinsStatusOf, TreeNode.data]⟩
    · subst hc
      refine ⟨⟨[("Programming_time", TType.Unknown)], ?_, ?_, ?_⟩, ?_, ?_, ?_⟩
      · simp [sig]
      · intro p hp
        rw [List.mem_singleton] at hp
        subst hp
        decide
      · rw [filter_shorts_single _ _ (by decide)]
        simp [isShortsNode, TreeNode.data]
      · simp [nodeReports, TreeNode.data]
      · simp [hne]
      · simp only [pinsStatusOf, TreeNode.data]
        exact head?_append_of_ne_nil st.tests _ hne
    · subst hc
      refine ⟨⟨[("PS_Info_" ++ toString (st.PS_counter + 1) ++ "%Voltage",
          TType.Measurement),
          ("PS_Info_" ++ toString (st.PS_counter + 1) ++ "%Current",
          TType.Current)], ?_, ?_, ?_⟩, ?_, ?_, ?_⟩
      · simp [sig]
      · intro p hp
        rcases List.mem_cons.mp hp with hp1 | hp1
        · subst hp1; simp
        · rw [List.mem_singleton] at hp1
          subst hp1; simp
      · simp [List.filter_cons, isShortsNode, TreeNode.data]
      · simp [nodeReports, TreeNode.data]
      · simp [hne]
      · simp only [pinsStatusOf, TreeNode.data]
        exact head?_append_of_ne_nil st.tests _ hne
  case Error s =>
    simp only [processTestNode, TreeNode.data] at h
    injection h with h
    subst h
    exact ⟨⟨[], by simp, by simp, by simp [isShortsNode, TreeNode.data]⟩,
      by simp [nodeReports, TreeNode.data], hne, by simp [pinsStatusOf, TreeNode.data]⟩
  all_goals
    simp only [processTestNode, TreeNode.data] at h
  all_goals
    injection h with h
  all_goals
    subst h
  all_goals
    exact ⟨⟨[], by simp, by simp, by simp [isShortsNode, TreeNode.data]⟩,
      by simp [nodeReports, TreeNode.data], hne, by simp [pinsStatusOf, TreeNode.data]⟩

theorem processTestNodes_spec :
    ∀ (ns : List TreeNode) (st st1 : InterpState),
      processTestNodes st ns = some st1 → st.tests ≠ [] →
      (∃ new, st1.tests.map sig = st.tests.map sig ++ new
         ∧ (∀ p ∈ new, p.2 ≠ TType.Pin)
         ∧ new.filter (fun p => p.2 == TType.Shorts)
             = List.replicate (ns.countP isShortsNode) ("shorts", TType.Shorts))
      ∧ st1.report = st.report ++ reportsOfNodes ns
      ∧ st1.tests ≠ []
      ∧ st1.tests.head? = (match lastPinsStatus ns with
          | some s => st.tests.head?.map fun t =>
              { t with result := (BResult.fromInt s, (s : ℚ)) }
          | none => st.tests.head?) := by
  intro ns
  induction ns with
  | nil =>
      intro st st1 h hne
      simp only [processTestNodes] at h
      injection h with h
      subst h
      exact ⟨⟨[], by simp, by simp, by simp⟩,
        by simp [reportsOfNodes], hne, by simp [lastPinsStatus]⟩
  | cons n ns ih =>
      intro st st1 h hne
      simp only [processTestNodes] at h
      cases hp : processTestNode st n with
      | none => rw [hp] at h; exact Option.noConfusion h
      | some st2 =>
          rw [hp] at h
          obtain ⟨⟨new1, hs1, hm1, hf1⟩, hr1, hn1, hh1⟩ :=
            processTestNode_spec st n st2 hne hp
          obtain ⟨⟨new2, hs2, hm2, hf2⟩, hr2, hn2, hh2⟩ := ih st2 st1 h hn1
          refine ⟨⟨new1 ++ new2, ?_, ?_, ?_⟩, ?_, hn2, ?_⟩
          · rw [hs2, hs1, List.append_assoc]
          · intro p hpm
            rcases List.mem_append.mp hpm with hpm1 | hpm2
            · exact hm1 p hpm1
            · exact hm2 p hpm2
          · rw [List.filter_append, hf1, hf2, List.countP_cons]
            by_cases hsh : isShortsNode n
            · simp [hsh, List.replicate_succ]
            · simp [hsh]
          · rw [hr2, hr1, List.append_assoc]
            have : reportsOfNodes (n :: ns) = nodeReports n ++ reportsOfNodes ns := by
              simp [reportsOfNodes]
            rw [this]
          · cases hl : lastPinsStatus ns with
            | some s =>
                rw [hl] at hh2
                have hns : lastPinsStatus (n :: ns) = some s := by
                  simp [lastPinsStatus, hl]
                rw [hns]
                cases ho : pinsStatusOf n with
                | none => rw [ho] at hh1; rw [hh2, hh1]
                | some s0 =>
                    rw [ho] at hh1
                    rw [hh2, hh1]
                    cases hop : st.tests.head? <;> rfl
            | none =>
                rw [hl] at hh2
                have hns : lastPinsStatus (n :: ns) = pinsStatusOf n := by
                  simp [lastPinsStatus, hl]
                rw [hns, hh2, hh1]

theorem load_v2_inv (tree : List TreeNode) (mtime : Option LocalTime)
    (lf : LogFile) (h : load_v2 tree mtime = some lf) :
    ∃ st : InterpState,
      processTestNodes initState (testNodesOf tree) = some st
      ∧ lf.tests = st.tests
      ∧ lf.report = String.intercalate "\n" st.report
      ∧ lf.time_start = (finalTimes (extractMeta tree) mtime).1
      ∧ lf.time_end = (finalTimes (extractMeta tree) mtime).2 := by
  unfold load_v2 at h
  rcases Option.map_eq_some'.mp h with ⟨st, hst, hlf⟩
  subst hlf
  exact ⟨st, hst, rfl, rfl, rfl, rfl⟩

theorem finalTimes_spec (bm : BoardMeta) (mtime : Option LocalTime) :
    (∀ mt : LocalTime, mtime = some mt → bm.time_start = 0 →
      (finalTimes bm mtime).1 = local_time_to_u64 mt)
    ∧ (bm.time_end = 0 → (finalTimes bm mtime).2 = (finalTimes bm mtime).1) := by
  constructor
  · intro mt hmt h0
    subst hmt
    simp only [finalTimes, if_pos h0]
  · intro h0
    simp only [finalTimes, if_pos h0]

/-- C1: for every file `load_v2` loads successfully, the test list is
non-empty, its first element is the pre-seeded pin-group test
(type `TType.Pin`), and it is the only pin-group test in the list, even
when the file contains no explicit pin-group record. -/
theorem c1_pin_group_seed (tree : List TreeNode) (mtime : Option LocalTime)
    (lf : LogFile) (h : load_v2 tree mtime = some lf) :
    lf.tests ≠ []
    ∧ lf.tests.head?.map Test.ttype = some TType.Pin
    ∧ lf.tests.countP (fun t => t.ttype == TType.Pin) = 1 := by
  obtain ⟨st, hst, hts, -, -, -⟩ := load_v2_inv tree mtime lf h
  obtain ⟨⟨new, hs, hm, -⟩, -, hn, -⟩ :=
    processTestNodes_spec (testNodesOf tree) initState st hst (by simp [initState])
  rw [hts]
  have hsig : st.tests.map sig = ("pins", TType.Pin) :: new := by
    rw [hs]; rfl
  refine ⟨hn, ?_, ?_⟩
  · have h1 : (st.tests.map sig).head? = some ("pins", TType.Pin) := by
      rw [hsig]; rfl
    rw [List.head?_map] at h1
    rcases Option.map_eq_some'.mp h1 with ⟨t, ht, hsigt⟩
    rw [ht]
    have h2 : t.ttype = TType.Pin := congrArg Prod.snd hsigt
    simp [h2]
  · have hc : st.tests.countP (fun t => t.ttype == TType.Pin)
        = (st.tests.map sig).countP (fun p => p.2 == TType.Pin) := by
      rw [List.countP_map]
      rfl
    have h0 : new.countP (fun p => p.2 == TType.Pin) = 0 := by
      rw [List.countP_eq_zero]
      intro p hp
      simp [hm p hp]
    rw [hc, hsig, List.countP_cons, h0]
    rfl

/-- C1 witness: the empty forest loads to a list whose only element is the
pin-group placeholder. -/
theorem c1_pin_group_seed_witness :
    lfEmpty.tests ≠ []
    ∧ lfEmpty.tests.head?.map Test.ttype = some TType.Pin
    ∧ lfEmpty.tests.countP (fun t => t.ttype == TType.Pin) = 1 :=
  c1_pin_group_seed [] none lfEmpty (by decide)

/-- C10: every shorts record appends a separate Test named `"shorts"` of
type `TType.Shorts`, independent of its fields: the Shorts-typed entries of
a loaded file are exactly one `"shorts"`-named entry per shorts record. -/
theorem c10_shorts_entries (tree : List TreeNode) (mtime : Option LocalTime)
    (lf : LogFile) (h : load_v2 tree mtime = some lf) :
    (lf.tests.filter fun t => t.ttype == TType.Shorts).map Test.name
      = List.replicate ((testNodesOf tree).countP isShortsNode) "shorts" := by
  obtain ⟨st, hst, hts, -, -, -⟩ := load_v2_inv tree mtime lf h
  obtain ⟨⟨new, hs, -, hf⟩, -, -, -⟩ :=
    processTestNodes_spec (testNodesOf tree) initState st hst (by simp [initState])
  rw [hts]
  have hsig : st.tests.map sig = ("pins", TType.Pin) :: new := by
    rw [hs]; rfl
  have hfm : (st.tests.filter fun t => t.ttype == TType.Shorts).map sig
      = (st.tests.map sig).filter (fun p => p.2 == TType.Shorts) := by
    rw [List.filter_map]
    rfl
  have hkey : (st.tests.filter fun t => t.ttype == TType.Shorts).map sig
      = List.replicate ((testNodesOf tree).countP isShortsNode)
          ("shorts", TType.Shorts) := by
    rw [hfm, hsig, List.filter_cons, hf]
    simp
  have hname : (st.tests.filter fun t => t.ttype == TType.Shorts).map Test.name
      = ((st.tests.filter fun t => t.ttype == TType.Shorts).map sig).map
          Prod.fst := by
    rw [List.map_map]
    rfl
  rw [hname, hkey, List.map_replicate]

/-- C10 witness: two shorts records yield exactly two `"shorts"` entries. -/
theorem c10_shorts_entries_witness :
    (lfShorts2.tests.filter fun t => t.ttype == TType.Shorts).map Test.name
      = List.replicate ((testNodesOf c10tree).countP isShortsNode) "shorts" :=
  c10_shorts_entries c10tree none lfShorts2 (by decide)

/-- C9: every pin-group record overwrites the pre-seeded pin test's result
unconditionally, so the last pin-group record in file order determines the
stored result (in particular a later passing record replaces an earlier
failing one). -/
theorem c9_pins_last_wins (tree : List TreeNode) (mtime : Option LocalTime)
    (lf : LogFile) (s : Int) (h : load_v2 tree mtime = some lf)
    (hp : lastPinsStatus (testNodesOf tree) = some s) :
    lf.tests.head?.map Test.result = some (BResult.fromInt s, (s : ℚ)) := by
  obtain ⟨st, hst, hts, -, -, -⟩ := load_v2_inv tree mtime lf h
  obtain ⟨-, -, -, hh⟩ :=
    processTestNodes_spec (testNodesOf tree) initState st hst (by simp [initState])
  rw [hp] at hh
  rw [hts, hh]
  rfl

/-- C9 witness: a failing pin-group record followed by a passing one leaves
the pin slot passing. -/
theorem c9_pins_last_wins_witness :
    lfPins.tests.head?.map Test.result
      = some (BResult.fromInt 0, ((0 : Int) : ℚ)) :=
  c9_pins_last_wins c9tree none lfPins 0 (by decide) (by decide)

/-- C6: when the metadata prologue found no start time (it is still 0), the
loaded file's start time is the file modification time in packed decimal
form, and when no end time was found the end time equals the (possibly
substituted) start time. -/
theorem c6_time_fallback (tree : List TreeNode) (mt : LocalTime)
    (lf : LogFile) (h : load_v2 tree (some mt) = some lf) :
    ((extractMeta tree).time_start = 0 →
      lf.time_start = local_time_to_u64 mt)
    ∧ ((extractMeta tree).time_end = 0 → lf.time_end = lf.time_start) := by
  obtain ⟨st, hst, -, -, hts, hte⟩ := load_v2_inv tree (some mt) lf h
  constructor
  · intro h0
    rw [hts]
    exact (finalTimes_spec (extractMeta tree) (some mt)).1 mt rfl h0
  · intro h0
    rw [hte, hts]
    exact (finalTimes_spec (extractMeta tree) (some mt)).2 h0

/-- C6 witness: the empty forest with modification time `mt0` gets
`mt0`'s packed form as both timestamps. -/
theorem c6_time_fallback_witness :
    lfTime.time_start = local_time_to_u64 mt0
    ∧ lfTime.time_end = lfTime.time_start :=
  ⟨(c6_time_fallback [] mt0 lfTime (by decide)).1 (by decide),
   (c6_time_fallback [] mt0 lfTime (by decide)).2 (by decide)⟩

/-- C5 (amended): the report is the newline-joined, file-order
concatenation of the report lines at the positions the interpreter walks
(`reportsOfNodes`), not of every line anywhere in the tree. -/
theorem c5_report_amended (tree : List TreeNode) (mtime : Option LocalTime)
    (lf : LogFile) (h : load_v2 tree mtime = some lf) :
    lf.report = String.intercalate "\n" (reportsOfNodes (testNodesOf tree)) := by
  obtain ⟨st, hst, -, hrep, -, -⟩ := load_v2_inv tree mtime lf h
  obtain ⟨-, hr, -, -⟩ :=
    processTestNodes_spec (testNodesOf tree) initState st hst (by simp [initState])
  rw [hrep, hr]
  rfl

/-- C5 witness: a single top-level report line becomes the whole report. -/
theorem c5_report_amended_witness :
    lfReportHi.report
      = String.intercalate "\n" (reportsOfNodes (testNodesOf c5wtree)) :=
  c5_report_amended c5wtree none lfReportHi (by decide)

/-- C7: decoding the packed timestamp 240115143000 renders exactly
`"24.01.15 14:30:00"`. -/
theorem c7_u64_render : u64_to_string 240115143000 = "24.01.15 14:30:00" := by
  decide

/-- C4 counterexample: on the non-empty input `"abc"`, which contains no
separator, `strip_index` returns the empty string rather than the input
unchanged, so both the unchanged-without-separator part and the
never-empty part of the claim are false. -/
theorem c4_strip_counterexample :
    strip_index "abc" = "" ∧ ("" : String) ≠ "abc" :=
  ⟨by decide, by decide⟩

theorem stripIndexAux_no_pct (cs : List Char) (h : '%' ∉ cs) :
    stripIndexAux cs = [] := by
  induction cs with
  | nil => rfl
  | cons c cs ih =>
      have hc : ¬ c = '%' := by
        intro hce
        exact h (by rw [← hce]; exact List.mem_cons_self c cs)
      simp only [stripIndexAux, if_neg hc]
      exact ih fun hm => h (List.mem_cons_of_mem c hm)

/-- C4 (amended): `strip_index` maps `"17%c617"` to `"c617"`, and maps any
string containing no separator to the empty string; a non-empty input can
therefore produce an empty name. -/
theorem c4_strip_amended :
    strip_index "17%c617" = "c617"
    ∧ ∀ s : String, '%' ∉ s.data → strip_index s = "" := by
  refine ⟨by decide, ?_⟩
  intro s hs
  unfold strip_index
  rw [stripIndexAux_no_pct s.data hs]

/-- C4 witness: the amended claim at `"17%c617"` and `"abc"`. -/
theorem c4_strip_amended_witness :
    strip_index "17%c617" = "c617" ∧ strip_index "abc" = "" :=
  ⟨c4_strip_amended.1, c4_strip_amended.2 "abc" (by decide)⟩

/-- C2 counterexample: a shorts record with primary status 0 and the
non-zero (negative) auxiliary code -1 produces a passing shorts test; the
claim demands a failing one. -/
theorem c2_shorts_counterexample :
    (load_v2 c2tree none).map
        (fun lf => lf.tests.map fun t => (t.name, t.result.1))
      = some [("pins", BResult.Unknown), ("shorts", BResult.Pass)]
    ∧ BResult.Pass ≠ BResult.Fail :=
  ⟨by decide, by decide⟩

/-- C2 (amended): the shorts correction fires on positive auxiliary codes:
if any of the three auxiliary codes is greater than zero the shorts test
fails even when the primary status is 0, and if the primary status is 0 and
all three auxiliary codes are zero it passes. -/
theorem c2_shorts_amended (st : InterpState) (status s1 s2 s3 f5 : Int)
    (bs : List TreeNode) :
    ((s1 > 0 ∨ s2 > 0 ∨ s3 > 0) →
      ((processTestNode st (TreeNode.mk
          (KeysightRecord.Shorts status s1 s2 s3 f5) bs)).bind
        fun st1 => st1.tests.getLast?.map fun t => t.result.1)
        = some BResult.Fail)
    ∧ (status = 0 → s1 = 0 → s2 = 0 → s3 = 0 →
      ((processTestNode st (TreeNode.mk
          (KeysightRecord.Shorts status s1 s2 s3 f5) bs)).bind
        fun st1 => st1.tests.getLast?.map fun t => t.result.1)
        = some BResult.Pass) := by
  constructor
  · intro hpos
    simp only [processTestNode, TreeNode.data, TreeNode.branches,
      Option.some_bind]
    rw [if_pos hpos, List.getLast?_concat]
    rfl
  · intro h0 h1 h2 h3
    subst h0; subst h1; subst h2; subst h3
    simp only [processTestNode, TreeNode.data, TreeNode.branches,
      Option.some_bind]
    rw [if_neg (by decide), List.getLast?_concat]
    rfl

/-- C2 witness: the amended claim at a positive auxiliary code and at all
codes zero. -/
theorem c2_shorts_amended_witness :
    ((processTestNode initState (TreeNode.mk
        (KeysightRecord.Shorts 0 1 0 0 0) [])).bind
      fun st1 => st1.tests.getLast?.map fun t => t.result.1)
      = some BResult.Fail
    ∧ ((processTestNode initState (TreeNode.mk
        (KeysightRecord.Shorts 0 0 0 0 0) [])).bind
      fun st1 => st1.tests.getLast?.map fun t => t.result.1)
      = some BResult.Pass :=
  ⟨(c2_shorts_amended initState 0 1 0 0 0 []).1 (Or.inl (by decide)),
   (c2_shorts_amended initState 0 0 0 0 0 []).2 rfl rfl rfl rfl⟩

/-- C3 counterexample: two standalone digital records for the same logical
check with statuses 0 then 3 yield two separate entries - the first entry
keeps status 0 and a new entry is appended - instead of the later non-zero
occurrence overwriting the first entry's result. -/
theorem c3_digital_counterexample :
    (load_v2 c3tree none).map
        (fun lf => lf.tests.map fun t => (t.name, t.ttype, t.result))
      = some [("pins", TType.Pin, (BResult.Unknown, 0)),
              ("d1", TType.Digital, (BResult.Pass, 0)),
              ("d1", TType.Digital, (BResult.Fail, 3))]
    ∧ (load_v2 c3tree none).map (fun lf => lf.tests.length) ≠ some 2 :=
  ⟨by decide, by decide⟩

theorem flatten_map_nil {α β : Type} (f : α → List β) (l : List α)
    (hf : ∀ a, f a = []) : (l.map f).flatten = [] := by
  induction l with
  | nil => rfl
  | cons a l ih => simp [hf a, ih]

theorem blockReports_dig (l : List (Int × String)) :
    blockReports (l.map mkDigSub) = [] := by
  unfold blockReports
  rw [List.map_map]
  exact flatten_map_nil _ l fun p => rfl

theorem blockNodes_dig (l : List (Int × String)) :
    blockNodes (l.map mkDigSub) = [] := by
  unfold blockNodes
  rw [List.map_map]
  exact flatten_map_nil _ l fun p => rfl

theorem blockDigitalFold (bn : String) :
    ∀ (rest : List (Int × String)) (xs : List Test) (nm0 : String) (a : Int)
      (btp : Option Nat),
      (rest.map mkDigSub).foldl (blockTestStep bn)
          (xs ++ [mkSimpleTest nm0 TType.Digital a], some xs.length, btp)
        = (xs ++ [mkSimpleTest nm0 TType.Digital
              (foldStatus a (rest.map Prod.fst))],
           some xs.length, btp) := by
  intro rest
  induction rest with
  | nil =>
      intro xs nm0 a btp
      simp [foldStatus]
  | cons p rest ih =>
      intro xs nm0 a btp
      obtain ⟨s, nm⟩ := p
      simp only [List.map_cons, List.foldl_cons]
      by_cases hs : s = 0
      · subst hs
        have hstep : blockTestStep bn
            (xs ++ [mkSimpleTest nm0 TType.Digital a], some xs.length, btp)
            (mkDigSub (0, nm))
            = (xs ++ [mkSimpleTest nm0 TType.Digital a], some xs.length, btp) := by
          simp [blockTestStep, mkDigSub, digNode, TreeNode.data]
        rw [hstep, ih]
        simp [foldStatus]
      · have hstep : blockTestStep bn
            (xs ++ [mkSimpleTest nm0 TType.Digital a], some xs.length, btp)
            (mkDigSub (s, nm))
            = (setTestResult (xs ++ [mkSimpleTest nm0 TType.Digital a])
                 xs.length (BResult.fromInt s, (s : ℚ)),
               some xs.length, btp) := by
          simp [blockTestStep, mkDigSub, digNode, TreeNode.data, hs]
        rw [hstep, setTestResult_append_singleton]
        have hupd : ({ mkSimpleTest nm0 TType.Digital a with
            result := (BResult.fromInt s, (s : ℚ)) })
            = mkSimpleTest nm0 TType.Digital s := rfl
        rw [hupd, ih]
        have hfs : foldStatus a (s :: rest.map Prod.fst)
            = foldStatus s (rest.map Prod.fst) := by
          simp [foldStatus, hs]
        rw [hfs]

/-- C3 (amended): inside a group, digital (and boundary-scan) occurrences
share one slot per kind - the first occurrence creates the entry with its
own status, a later non-zero status overwrites it and a later zero status
is ignored, so statuses [0, 0, 3, 0] leave stored status 3 - while
standalone digital and boundary-scan records are never merged: each one
appends its own Test entry. -/
theorem c3_digital_amended :
    (∀ (st : InterpState) (bn nm : String) (a : Int)
        (rest : List (Int × String)),
      processTestNode st (mkDigBlock bn ((a, nm) :: rest))
        = some { st with
            tests := st.tests ++
              [mkSimpleTest (strip_index nm) TType.Digital
                (foldStatus a (rest.map Prod.fst))] })
    ∧ ((load_v2 [mkDigBlock "1%blk" [(0, "1%d"), (0, "2%d"), (3, "3%d"),
          (0, "4%d")]] none).map
        (fun lf => lf.tests.map fun t => (t.name, t.ttype, t.result))
        = some [("pins", TType.Pin, (BResult.Unknown, 0)),
                ("d", TType.Digital, (BResult.Fail, 3))])
    ∧ ((load_v2 [mkBdryBlock "1%blk" [(0, "1%b"), (0, "2%b"), (3, "3%b"),
          (0, "4%b")]] none).map
        (fun lf => lf.tests.map fun t => (t.name, t.ttype, t.result))
        = some [("pins", TType.Pin, (BResult.Unknown, 0)),
                ("b", TType.BoundaryS, (BResult.Fail, 3))])
    ∧ (∀ (st : InterpState) (s : Int) (nm : String),
      processTestNode st (digNode s nm)
        = some { st with
            tests := st.tests ++
              [mkSimpleTest (strip_index nm) TType.Digital s] })
    ∧ (∀ (st : InterpState) (s : Int) (nm : String),
      processTestNode st (bdryNode s nm)
        = some { st with
            tests := st.tests ++
              [mkSimpleTest (strip_index nm) TType.BoundaryS s] }) := by
  refine ⟨?_, by decide, by decide, ?_, ?_⟩
  · intro st bn nm a rest
    simp only [processTestNode, mkDigBlock, TreeNode.data, TreeNode.branches]
    rw [blockReports_dig, blockNodes_dig]
    rw [List.map_cons, List.foldl_cons]
    have hstep : blockTestStep (strip_index bn) (st.tests, none, none)
        (mkDigSub (a, nm))
        = (st.tests ++ [mkSimpleTest (strip_index nm) TType.Digital a],
           some st.tests.length, none) := by
      simp [blockTestStep, mkDigSub, digNode, TreeNode.data]
    rw [hstep, blockDigitalFold]
    simp
  · intro st s nm
    simp [processTestNode, digNode, TreeNode.data, TreeNode.branches,
      directReports, dpinNodes]
  · intro st s nm
    simp [processTestNode, bdryNode, TreeNode.data, TreeNode.branches,
      directReports]

/-- C5 counterexample: a report line sitting in the first-branch position
of an analog record (where the limit is expected) is dropped: the loaded
report is empty while the tree contains the line `"hello"`. -/
theorem c5_report_counterexample :
    (load_v2 c5tree none).map LogFile.report = some ""
    ∧ String.intercalate "\n" (allReportsList c5tree) = "hello"
    ∧ ("" : String) ≠ "hello" := by
  refine ⟨by decide, ?_, by decide⟩
  simp only [allReportsList, allReports, c5tree, TreeNode.data]
  decide

theorem isPrefixOf_append_self (l t : List Char) :
    l.isPrefixOf (l ++ t) = true := by
  induction l with
  | nil => simp [List.isPrefixOf]
  | cons c cs ih => simp [List.isPrefixOf, ih]

theorem isSuffixOf_append_self (l t : List Char) :
    l.isSuffixOf (t ++ l) = true := by
  simp only [List.isSuffixOf, List.reverse_append]
  exact isPrefixOf_append_self l.reverse t.reverse

theorem strip_suffix_append (v suf : String) :
    strip_suffix (v ++ suf) suf = some v := by
  unfold strip_suffix
  have hd : (v ++ suf).data = v.data ++ suf.data := rfl
  rw [hd, if_pos (isSuffixOf_append_self suf.data v.data)]
  congr 1
  rw [List.length_append, Nat.add_sub_cancel, List.take_left]

theorem psInfoStep (st : InterpState) (v c : String) (rv rc : ℚ)
    (bs : List TreeNode) (hv : parseF32 v = some rv)
    (hc : parseF32 c = some rc) :
    processTestNode st (TreeNode.mk
        (KeysightRecord.UserDefined ["@PS_info", v ++ "V", c ++ "A"]) bs)
      = some { st with
          PS_counter := st.PS_counter + 1,
          tests := st.tests ++
            [{ name := "PS_Info_" ++ toString (st.PS_counter + 1) ++ "%Voltage",
               ttype := TType.Measurement, result := (BResult.Pass, rv),
               limits := TLimit.None },
             { name := "PS_Info_" ++ toString (st.PS_counter + 1) ++ "%Current",
               ttype := TType.Current, result := (BResult.Pass, rc),
               limits := TLimit.None }] } := by
  simp only [processTestNode, TreeNode.data, processUserDefined,
    strip_suffix_append, hv, hc]
  simp

theorem processTestNodes_cons_some (st : InterpState) (n : TreeNode)
    (ns : List TreeNode) (st1 : InterpState)
    (h : processTestNode st n = some st1) :
    processTestNodes st (n :: ns) = processTestNodes st1 ns := by
  simp [processTestNodes, h]

theorem parseF32_12 : parseF32 "12.0" = some 12 := by
  have h : parseF32 "12.0"
      = some (((12 : ℕ) : ℚ) + ((0 : ℕ) : ℚ) / (10 : ℚ) ^ (1 : ℕ)) := rfl
  rw [h]
  norm_num

theorem parseF32_05 : parseF32 "0.5" = some (1 / 2) := by
  have h : parseF32 "0.5"
      = some (((0 : ℕ) : ℚ) + ((5 : ℕ) : ℚ) / (10 : ℚ) ^ (1 : ℕ)) := rfl
  rw [h]
  norm_num

theorem parseF32_33 : parseF32 "3.3" = some (33 / 10) := by
  have h : parseF32 "3.3"
      = some (((3 : ℕ) : ℚ) + ((3 : ℕ) : ℚ) / (10 : ℚ) ^ (1 : ℕ)) := rfl
  rw [h]
  norm_num

theorem parseF32_125 : parseF32 "1.25" = some (5 / 4) := by
  have h : parseF32 "1.25"
      = some (((1 : ℕ) : ℚ) + ((25 : ℕ) : ℚ) / (10 : ℚ) ^ (2 : ℕ)) := rfl
  rw [h]
  norm_num

/-- C8: a well-formed power-supply-info directive appends exactly two
passing tests named `PS_Info_<n>%Voltage` and `PS_Info_<n>%Current`
carrying the parsed voltage and current, where `<n>` is the per-file
counter incremented by the directive; starting from the initial state the
first directive uses n = 1 and the second n = 2 (concretely,
`["@PS_info", "12.0V", "0.5A"]` yields 12.0 and 0.5). -/
theorem c8_ps_info :
    (∀ (st : InterpState) (v c : String) (rv rc : ℚ) (bs : List TreeNode),
      parseF32 v = some rv → parseF32 c = some rc →
      processTestNode st (TreeNode.mk
          (KeysightRecord.UserDefined ["@PS_info", v ++ "V", c ++ "A"]) bs)
        = some { st with
            PS_counter := st.PS_counter + 1,
            tests := st.tests ++
              [{ name := "PS_Info_" ++ toString (st.PS_counter + 1) ++ "%Voltage",
                 ttype := TType.Measurement, result := (BResult.Pass, rv),
                 limits := TLimit.None },
               { name := "PS_Info_" ++ toString (st.PS_counter + 1) ++ "%Current",
                 ttype := TType.Current, result := (BResult.Pass, rc),
                 limits := TLimit.None }] })
    ∧ ((load_v2 c8tree none).map
        (fun lf => lf.tests.map fun t => (t.name, t.ttype, t.result))
        = some [("pins", TType.Pin, (BResult.Unknown, 0)),
                ("PS_Info_1%Voltage", TType.Measurement, (BResult.Pass, 12)),
                ("PS_Info_1%Current", TType.Current, (BResult.Pass, 1/2)),
                ("PS_Info_2%Voltage", TType.Measurement, (BResult.Pass, 33/10)),
                ("PS_Info_2%Current", TType.Current, (BResult.Pass, 5/4))]) := by
  constructor
  · intro st v c rv rc bs hv hc
    exact psInfoStep st v c rv rc bs hv hc
  · have e1 : ("12.0" ++ "V" : String) = "12.0V" := rfl
    have e2 : ("0.5" ++ "A" : String) = "0.5A" := rfl
    have e3 : ("3.3" ++ "V" : String) = "3.3V" := rfl
    have e4 : ("1.25" ++ "A" : String) = "1.25A" := rfl
    have hp1 := psInfoStep initState "12.0" "0.5" 12 (1 / 2) []
      parseF32_12 parseF32_05
    rw [e1, e2] at hp1
    have hp2 := psInfoStep { initState with
        PS_counter := initState.PS_counter + 1,
        tests := initState.tests ++
          [{ name := "PS_Info_" ++ toString (initState.PS_counter + 1) ++ "%Voltage",
             ttype := TType.Measurement, result := (BResult.Pass, 12),
             limits := TLimit.None },
           { name := "PS_Info_" ++ toString (initState.PS_counter + 1) ++ "%Current",
             ttype := TType.Current, result := (BResult.Pass, 1 / 2),
             limits := TLimit.None }] }
      "3.3" "1.25" (33 / 10) (5 / 4) [] parseF32_33 parseF32_125
    rw [e3, e4] at hp2
    have ht : testNodesOf c8tree
        = [TreeNode.mk (KeysightRecord.UserDefined
              ["@PS_info", "12.0V", "0.5A"]) [],
           TreeNode.mk (KeysightRecord.UserDefined
              ["@PS_info", "3.3V", "1.25A"]) []] := rfl
    unfold load_v2
    rw [ht, processTestNodes_cons_some _ _ _ _ hp1,
      processTestNodes_cons_some _ _ _ _ hp2]
    rfl

/-- C8 witness: the general directive rule applied at `"12.0V"` / `"0.5A"`
from the initial state. -/
theorem c8_ps_info_witness :
    processTestNode initState (TreeNode.mk
        (KeysightRecord.UserDefined ["@PS_info", "12.0" ++ "V", "0.5" ++ "A"]) [])
      = some { initState with
          PS_counter := initState.PS_counter + 1,
          tests := initState.tests ++
            [{ name := "PS_Info_" ++ toString (initState.PS_counter + 1) ++ "%Voltage",
               ttype := TType.Measurement, result := (BResult.Pass, 12),
               limits := TLimit.None },
             { name := "PS_Info_" ++ toString (initState.PS_counter + 1) ++ "%Current",
               ttype := TType.Current, result := (BResult.Pass, 1/2),
               limits := TLimit.None }] } :=
  c8_ps_info.1 initState "12.0" "0.5" 12 (1/2) [] parseF32_12 parseF32_05
